import Mathlib

/-!
Verification development for the math-formula layout core of the typst
library crate: the fragment model, the MathRow classification/auto-spacing
algorithm (src/library/src/math/row.rs), the frame-assembly routines, the
LayoutMath dispatcher and the FormulaNode entry point
(src/library/src/math/mod.rs).

Lengths are embedded as rationals. Code that lives outside the excerpt
(fragment model, spacing-gap table, alignment-point resolution, style and
font services, the Frame type of the core crate) is modelled from the
specification; such definitions carry a doc comment starting with
"Modelled from the spec:".
-/

/-- Modelled from the spec: the math classification scheme carried by
substantive fragments (unicode-math-class crate, outside the excerpt). -/
inductive MathClass where
  | Normal
  | Alphabetic
  | Binary
  | Relation
  | Opening
  | Closing
  | Punctuation
  | Fence
  | Operator
  | Vary
  | Large
deriving DecidableEq, Repr

/-- Modelled from the spec: the MathFragment variant type (fragment.rs,
outside the excerpt). One substantive constructor Glyph stands for the
glyph/opaque-frame fragments that carry geometry and a classification;
Space, Spacing, Align and Linebreak are the marker variants. -/
inductive MathFragment where
  | Glyph (cls : Option MathClass) (width ascent descent : ℚ)
  | Space (width : ℚ)
  | Spacing (width : ℚ)
  | Align
  | Linebreak
deriving DecidableEq, Repr

namespace MathFragment

/-- Classification of a fragment; only Glyph fragments carry one. -/
def cls : MathFragment → Option MathClass
  | .Glyph c _ _ _ => c
  | _ => none

/-- Reclassify a substantive fragment; markers are unchanged. -/
def setClass (c : MathClass) : MathFragment → MathFragment
  | .Glyph _ w a d => .Glyph (some c) w a d
  | f => f

/-- Width of a fragment; the Align and Linebreak markers are zero-width. -/
def width : MathFragment → ℚ
  | .Glyph _ w _ _ => w
  | .Space w => w
  | .Spacing w => w
  | .Align => 0
  | .Linebreak => 0

/-- Ascent of a fragment; only Glyph fragments have vertical extent. -/
def ascent : MathFragment → ℚ
  | .Glyph _ _ a _ => a
  | _ => 0

/-- Descent of a fragment; only Glyph fragments have vertical extent. -/
def descent : MathFragment → ℚ
  | .Glyph _ _ _ d => d
  | _ => 0

/-- Whether the fragment is the implicit whitespace marker. -/
def isSpace : MathFragment → Bool
  | .Space _ => true
  | _ => false

/-- Whether the fragment is the alignment-column marker. -/
def isAlign : MathFragment → Bool
  | .Align => true
  | _ => false

/-- Whether the fragment is the line-break marker. -/
def isLinebreak : MathFragment → Bool
  | .Linebreak => true
  | _ => false

/-- Whether the fragment is substantive (a Glyph/opaque-frame fragment). -/
def isGlyph : MathFragment → Bool
  | .Glyph _ _ _ _ => true
  | _ => false

end MathFragment

/-- Thin gap width, in scaled-font units. -/
def THIN : ℚ := 3 / 18

/-- Medium gap width, in scaled-font units. -/
def MEDIUM : ℚ := 4 / 18

/-- Thick gap width, in scaled-font units. -/
def THICK : ℚ := 5 / 18

/-- Modelled from the spec: the spacing-gap policy (spacing.rs, outside the
excerpt) as a function of the classification at the last accepted fragment,
the buffered pending space, and the classification of the current fragment.
The pending space may influence, but not force, the inserted gap: it is
used only in the default case of the classification-pair table. -/
def spacingGap (l r : Option MathClass) (sp : Option ℚ) : Option ℚ :=
  if r = some MathClass.Punctuation then none
  else if l = some MathClass.Opening ∨ r = some MathClass.Closing then none
  else if l = some MathClass.Relation ∧ r = some MathClass.Relation then none
  else if l = some MathClass.Relation ∨ r = some MathClass.Relation then some THICK
  else if l = some MathClass.Binary ∨ r = some MathClass.Binary then some MEDIUM
  else sp

/-- Modelled from the spec: the inter-fragment spacing function called by
MathRow construction (spacing.rs, outside the excerpt). A yielded nonzero
gap is materialised as a Spacing fragment. -/
def spacing (l : MathFragment) (space : Option MathFragment) (r : MathFragment) :
    Option MathFragment :=
  (spacingGap l.cls r.cls (space.map MathFragment.width)).map MathFragment.Spacing

/-- The Vary-to-Binary promotion test of MathRow construction: the current
fragment is Vary and the classification at the last accepted fragment is
Normal, Alphabetic, Closing or Fence (row.rs lines 54-63). -/
def promoCond (lastCls : Option MathClass) (c : Option MathClass) : Prop :=
  c = some MathClass.Vary ∧
    (lastCls = some MathClass.Normal ∨ lastCls = some MathClass.Alphabetic ∨
      lastCls = some MathClass.Closing ∨ lastCls = some MathClass.Fence)

instance (lastCls c : Option MathClass) : Decidable (promoCond lastCls c) := by
  unfold promoCond; infer_instance

/-- The Vary-to-Binary promotion step of MathRow construction
(row.rs lines 54-66). -/
def promote (lastCls : Option MathClass) (f : MathFragment) : MathFragment :=
  if promoCond lastCls f.cls then f.setClass MathClass.Binary else f

/-- The single left-to-right resolution pass of MathRow construction
(row.rs lines 17-77): last is the index of the most recently accepted
substantive fragment, space the buffered pending Space fragment, resolved
the output accumulator. -/
def newLoop : Option Nat → Option MathFragment → List MathFragment →
    List MathFragment → List MathFragment
  | _, _, resolved, [] => resolved
  | last, space, resolved, .Space w :: rest =>
      if last.isSome then newLoop last (some (.Space w)) resolved rest
      else newLoop last space resolved rest
  | _, _, resolved, .Spacing w :: rest =>
      newLoop none none (resolved ++ [.Spacing w]) rest
  | last, space, resolved, .Align :: rest =>
      newLoop last space (resolved ++ [.Align]) rest
  | _, _, resolved, .Linebreak :: rest =>
      newLoop none none (resolved ++ [.Linebreak]) rest
  | last, space, resolved, .Glyph c w a d :: rest =>
      let f := promote (last.bind fun i => (resolved.get? i).bind MathFragment.cls)
        (.Glyph c w a d)
      let resolved1 :=
        match last with
        | some i =>
            match resolved.get? i with
            | some prev =>
                match spacing prev space f with
                | some s => resolved.insertIdx (i + 1) s
                | none => resolved
            | none => resolved
        | none => resolved
      let space1 : Option MathFragment :=
        match last with
        | some _ => none
        | none => space
      newLoop (some resolved1.length) space1 (resolved1 ++ [f]) rest

/-- MathRow construction (row.rs lines 11-80): resolve a raw fragment
sequence into the canonical sequence, performing Vary-to-Binary promotion
and automatic spacing insertion in one pass. -/
def MathRow.new (fragments : List MathFragment) : List MathFragment :=
  newLoop none none [] fragments

/-- Maximum of a list of rationals, or zero for the empty list, mirroring
max().unwrap_or_default(). -/
def maxD : List ℚ → ℚ
  | [] => 0
  | x :: xs => xs.foldl max x

/-- Row width: the sum of all fragment widths (row.rs lines 86-88). -/
def MathRow.width (l : List MathFragment) : ℚ :=
  (l.map MathFragment.width).sum

/-- Row ascent: the maximum fragment ascent (row.rs lines 94-96). -/
def MathRow.ascent (l : List MathFragment) : ℚ :=
  maxD (l.map MathFragment.ascent)

/-- Row descent: the maximum fragment descent (row.rs lines 98-100). -/
def MathRow.descent (l : List MathFragment) : ℚ :=
  maxD (l.map MathFragment.descent)

/-- Row height: ascent plus descent (row.rs lines 90-92). -/
def MathRow.height (l : List MathFragment) : ℚ :=
  MathRow.ascent l + MathRow.descent l

/-- Modelled from the spec: a frame, the positioned tree of placed
sub-frames with width, height, an optional explicit baseline (defaulting
to the full height) and a list of placed items (typst core crate, outside
the excerpt). -/
structure Frame where
  width : ℚ
  height : ℚ
  baseline? : Option ℚ
  items : List ((ℚ × ℚ) × Frame)
deriving Repr

namespace Frame

/-- A new empty frame of the given size. -/
def new (w h : ℚ) : Frame :=
  { width := w, height := h, baseline? := none, items := [] }

/-- The baseline: the explicit one when set, the full height otherwise. -/
def baseline (f : Frame) : ℚ :=
  f.baseline?.getD f.height

/-- Frame ascent: the distance from the top to the baseline. -/
def ascent (f : Frame) : ℚ :=
  f.baseline

/-- Frame descent: the distance from the baseline to the bottom. -/
def descent (f : Frame) : ℚ :=
  f.height - f.baseline

/-- Modelled from the spec: translating a frame moves its contents, so the
material that sat on the old baseline afterwards sits at old baseline plus
the vertical offset; the recorded baseline moves with the contents. -/
def translate (f : Frame) (dx dy : ℚ) : Frame :=
  { f with
    items := f.items.map (fun it => ((it.1.1 + dx, it.1.2 + dy), it.2))
    baseline? := some (f.baseline + dy) }

end Frame

/-- A fragment rendered as a frame of its own geometry. -/
def MathFragment.toFrame (f : MathFragment) : Frame :=
  { width := f.width
    height := f.ascent + f.descent
    baseline? := some f.ascent
    items := [] }

/-- Modelled from the spec: the resolved horizontal alignment (typst core
crate, outside the excerpt). -/
inductive Align where
  | Left
  | Center
  | Right
deriving DecidableEq, Repr

/-- Modelled from the spec: position of aligned content inside free space
of the given extent. -/
def Align.position : Align → ℚ → ℚ
  | .Left, _ => 0
  | .Center, v => v / 2
  | .Right, v => v

/-- Modelled from the spec: the math size level (style.rs, outside the
excerpt), ordered from script-script size up to display size. -/
inductive MathSize where
  | ScriptScript
  | Script
  | Text
  | Display
deriving DecidableEq, Repr

/-- Numeric rank of a size level, for the at-least-text comparison. -/
def MathSize.rank : MathSize → Nat
  | .ScriptScript => 0
  | .Script => 1
  | .Text => 2
  | .Display => 3

/-- The tight leading constant of row.rs line 5, in em. -/
def TIGHT_LEADING : ℚ := 1 / 4

/-- Modelled from the spec: a style delta as pushed by a styled node
(typst model crate, outside the excerpt), reduced to the two text
properties the dispatcher reads: the font and the font size. A field of
none leaves the property of the underlying chain untouched. -/
structure StyleMap where
  font? : Option Nat
  size? : Option ℚ
deriving DecidableEq, Repr

/-- Modelled from the spec: layering a map over an outer map, the outer
entries filling the properties the inner map leaves open. -/
def StyleMap.apply (m outer : StyleMap) : StyleMap :=
  { font? := m.font? <|> outer.font?
    size? := m.size? <|> outer.size? }

/-- Modelled from the spec: the slice of the per-formula MathContext state
(ctx.rs, outside the excerpt) that the row assembler and the dispatcher
read and mutate: the base style chain, the active style delta, current
font size, current size level, resolved paragraph leading, default space
width, font axis height, and the accumulated fragment buffer. -/
structure MathCtx where
  baseFont : Nat
  baseSize : ℚ
  map : StyleMap
  size : ℚ
  sizeLevel : MathSize
  parLeading : ℚ
  spaceWidth : ℚ
  axisHeight : ℚ
  fragments : List MathFragment
deriving DecidableEq, Repr

/-- The font the active style chain resolves to: the delta entry when set,
the base font otherwise. -/
def MathCtx.fontIn (ctx : MathCtx) : Nat :=
  ctx.map.font?.getD ctx.baseFont

/-- The font size the active style chain resolves to. -/
def MathCtx.sizeIn (ctx : MathCtx) : ℚ :=
  ctx.map.size?.getD ctx.baseSize

/-- Append one fragment to the fragment buffer of the context. -/
def MathCtx.push (ctx : MathCtx) (f : MathFragment) : MathCtx :=
  { ctx with fragments := ctx.fragments ++ [f] }

/-- Split a fragment list at separators, keeping empty runs, mirroring
slice::split: n separators produce n plus one sub-rows. -/
def splitRows (p : MathFragment → Bool) : List MathFragment → List (List MathFragment)
  | [] => [[]]
  | f :: rest =>
      if p f then [] :: splitRows p rest
      else
        match splitRows p rest with
        | r :: rs => (f :: r) :: rs
        | [] => [[f]]

/-- Modelled from the spec: shared alignment-column positions across the
sub-rows (align.rs, outside the excerpt): position of column j is the sum
of the per-column maxima of the segment widths, so columns line up
vertically across rows. -/
def alignments (rows : List (List MathFragment)) : List ℚ :=
  let counts := rows.map fun r => (r.filter MathFragment.isAlign).length
  let ncols := counts.foldr max 0
  let segs : List (List ℚ) :=
    rows.map fun r => (splitRows MathFragment.isAlign r).map MathRow.width
  let colWidth : Nat → ℚ := fun j => maxD (segs.map fun ws => (ws.get? j).getD 0)
  (List.range ncols).map fun j => (((List.range (j + 1)).map colWidth).map id).sum

/-- The backward scan of to_line_frame (row.rs lines 168-177): starting
from the first alignment point, subtract fragment widths until the first
Align marker; yields the starting offset when one is found. -/
def centerX (offset : ℚ) : List MathFragment → Option ℚ
  | [] => none
  | f :: rest =>
      if f.isAlign then some (offset - f.width)
      else centerX (offset - f.width) rest

/-- The placement loop of to_line_frame (row.rs lines 179-194): walk the
fragments advancing the cursor, snapping it to the next pre-computed
column position at each Align marker; returns the items and the final
cursor. -/
def lineItems (ascent : ℚ) (points : List ℚ) :
    List MathFragment → ℚ → Nat → List ((ℚ × ℚ) × Frame) × ℚ
  | [], x, _ => ([], x)
  | .Align :: rest, x, i =>
      lineItems ascent points rest ((points.get? i).getD x) (i + 1)
  | f :: rest, x, i =>
      let res := lineItems ascent points rest (x + f.width) i
      (((x, ascent - f.ascent), f.toFrame) :: res.1, res.2)

/-- Single-row frame assembly, to_line_frame (row.rs lines 160-198):
baseline-aligned placement of each fragment, with Align markers snapping
the cursor to column positions; final width is the final cursor. -/
def toLineFrame (l : List MathFragment) (points : List ℚ) (align : Align) : Frame :=
  let ascent := MathRow.ascent l
  let descent := MathRow.descent l
  let x0 : ℚ :=
    match points.head?, align with
    | some first, Align.Center => (centerX first l).getD 0
    | _, _ => 0
  let res := lineItems ascent points l x0 0
  { width := res.2
    height := ascent + descent
    baseline? := some ascent
    items := res.1 }

/-- The sub-row stacking loop of to_aligned_frame (row.rs lines 139-153):
each sub-row frame is placed below the previous ones separated by the
leading (from the second row on); its x position obeys the global
alignment only when the shared column-point list is empty. -/
def assembleRows (leading width : ℚ) (points : List ℚ) (align : Align) :
    Nat → Frame → List (List MathFragment) → Frame
  | _, frame, [] => frame
  | i, frame, row :: rest =>
      let sub := toLineFrame row points align
      let y0 := frame.height + (if 0 < i then leading else 0)
      let px : ℚ := if points.isEmpty then align.position (width - sub.width) else 0
      let frame' : Frame :=
        { width := max frame.width sub.width
          height := y0 + sub.height
          baseline? := frame.baseline?
          items := frame.items ++ [((px, y0), sub)] }
      assembleRows leading width points align (i + 1) frame' rest

/-- The leading used between the sub-rows of a multi-row frame
(row.rs lines 124-128): the paragraph leading at text size and above,
the scaled tight leading below text size. -/
def rowLeading (ctx : MathCtx) : ℚ :=
  if MathSize.Text.rank ≤ ctx.sizeLevel.rank then ctx.parLeading
  else TIGHT_LEADING * ctx.size

/-- Multi-row frame assembly, to_aligned_frame (row.rs lines 116-158): a
row holding Linebreak markers is split into sub-rows, shared alignment
points are computed, and the sub-rows are stacked vertically; a row
without Linebreak markers is delegated to single-row assembly with the
given points and alignment. -/
def MathRow.toAlignedFrame (ctx : MathCtx) (l : List MathFragment)
    (points : List ℚ) (align : Align) : Frame :=
  if l.any MathFragment.isLinebreak then
    let leading := rowLeading ctx
    let rows := splitRows MathFragment.isLinebreak l
    let width := maxD (rows.map MathRow.width)
    let sharedPoints := alignments rows
    assembleRows leading width sharedPoints align 0 (Frame.new 0 0) rows
  else
    toLineFrame l points align

/-- Modelled from the spec: a font handle as seen by the entry point
(typst font crate, outside the excerpt); all that matters here is whether
its math constants table is present. -/
structure FontM where
  hasMathConstants : Bool
deriving DecidableEq, Repr

/-- The per-family lookup of the font scan (mod.rs lines 178-184): the
family resolves to a font, which matches only when it exposes the math
constants table. -/
def matchMathFont (fam : Option FontM) : Option FontM :=
  fam.bind fun f => if f.hasMathConstants then some f else none

/-- The font scan of FormulaNode::layout (mod.rs lines 176-184): the first
family of the active list whose font exposes the math constants table. -/
def selectMathFont (families : List (Option FontM)) : Option FontM :=
  families.findSome? matchMathFont

/-- The vertical metric reconciliation of FormulaNode::layout
(mod.rs lines 195-205): a block formula keeps its natural metrics; an
inline formula gets ascent max(topEdge, ascent - 0.7 leading), descent
max(bottomEdge, descent - 0.7 leading), is translated so its baseline
lands at the new ascent, and its height becomes ascent plus descent. -/
def reconcile (block : Bool) (leading topEdge bottomEdge : ℚ) (frame : Frame) :
    Frame :=
  if block then frame
  else
    let slack := leading * (7 / 10)
    let ascent := max topEdge (frame.ascent - slack)
    let descent := max bottomEdge (frame.descent - slack)
    let f1 := frame.translate 0 (ascent - frame.baseline)
    { f1 with height := ascent + descent }

/-- The FormulaNode::layout entry point (mod.rs lines 166-208): scan the
families for a math font; on failure, error at the node's span when it
has one and otherwise return an empty zero-size frame; on success, lay
out the body with the chosen font and reconcile the metrics. -/
def formulaNodeLayout (families : List (Option FontM)) (span : Option Nat)
    (block : Bool) (leading topEdge bottomEdge : ℚ)
    (layoutFrame : FontM → Except Nat Frame) : Except Nat Frame :=
  match selectMathFont families with
  | none =>
      match span with
      | some s => .error s
      | none => .ok (Frame.new 0 0)
  | some font =>
      match layoutFrame font with
      | .error e => .error e
      | .ok frame => .ok (reconcile block leading topEdge bottomEdge frame)

/-- The amount carried by horizontal-spacing content (the Spacing enum of
the layout crate, outside the excerpt): a relative length with absolute
and relative parts, or a fractional amount. -/
inductive SpacingAmount where
  | Rel (abs rel : ℚ)
  | Fr (f : ℚ)
deriving DecidableEq, Repr

/-- The content-node shapes the LayoutMath dispatcher distinguishes
(mod.rs lines 221-287): sequences, styled subtrees, spaces, line breaks,
horizontal spacing, text runs, and other content handled by the generic
fallback. -/
inductive Content where
  | Sequence (children : List Content)
  | Styled (map : StyleMap) (body : Content)
  | SpaceC
  | LinebreakC
  | H (amount : SpacingAmount)
  | Text (id : Nat)
  | Other (id : Nat)
deriving Repr

/-- Modelled from the spec: the fallible external collaborators the
dispatcher calls: the text shaping service (given a text run and the
current size, glyph fragments) and the generic content layout (given
content, an opaque frame). -/
structure Externals where
  shapeText : Nat → ℚ → Except Unit (List MathFragment)
  layoutContent : Content → Except Unit Frame

/-- An opaque frame wrapped as a substantive, spacing-eligible fragment
(FrameFragment, fragment.rs outside the excerpt). -/
def frameFragment (frame : Frame) : MathFragment :=
  .Glyph (some MathClass.Normal) frame.width frame.ascent frame.descent

mutual

/-- The LayoutMath dispatcher for content (mod.rs lines 221-287), as
explicit state passing: the pair holds the propagated result and the
context as left by the call, mirroring the mutable borrow. -/
def layoutMath (ext : Externals) (c : Content) (ctx : MathCtx) :
    Except Unit Unit × MathCtx :=
  match c with
  | .Sequence cs => layoutMathSeq ext cs ctx
  | .Styled m body =>
      if m.font?.getD ctx.fontIn ≠ ctx.fontIn then
        match ext.layoutContent (.Styled m body) with
        | .error e => (.error e, ctx)
        | .ok frame => (.ok (), ctx.push (frameFragment frame))
      else
        let prevMap := ctx.map
        let prevSize := ctx.size
        let map1 := StyleMap.apply m prevMap
        let ctx1 := { ctx with map := map1, size := map1.size?.getD ctx.baseSize }
        match layoutMath ext body ctx1 with
        | (.ok _, ctx2) => (.ok (), { ctx2 with size := prevSize, map := prevMap })
        | (.error e, ctx2) => (.error e, ctx2)
  | .SpaceC => (.ok (), ctx.push (.Space (ctx.spaceWidth * ctx.size)))
  | .LinebreakC => (.ok (), ctx.push .Linebreak)
  | .H amount =>
      match amount with
      | .Rel ab rel =>
          if rel = 0 then (.ok (), ctx.push (.Spacing ab)) else (.ok (), ctx)
      | .Fr _ => (.ok (), ctx)
  | .Text id =>
      match ext.shapeText id ctx.size with
      | .error e => (.error e, ctx)
      | .ok frags => (.ok (), frags.foldl MathCtx.push ctx)
  | .Other id =>
      match ext.layoutContent (.Other id) with
      | .error e => (.error e, ctx)
      | .ok frame =>
          let frame1 :=
            if frame.baseline?.isSome then frame
            else { frame with baseline? := some (frame.height / 2 + ctx.axisHeight) }
          (.ok (), ctx.push (frameFragment frame1))

/-- The sequence case of the dispatcher: recurse on each child in order,
short-circuiting on the first failure. -/
def layoutMathSeq (ext : Externals) (cs : List Content) (ctx : MathCtx) :
    Except Unit Unit × MathCtx :=
  match cs with
  | [] => (.ok (), ctx)
  | c :: rest =>
      match layoutMath ext c ctx with
      | (.ok _, ctx1) => layoutMathSeq ext rest ctx1
      | e => e

end

/-- The classification context a resolution pass carries at one point of a
resolved sequence: none when no substantive fragment is live (start,
after Spacing, after Linebreak), otherwise the classification of the live
substantive fragment. Used to state that resolved sequences are fixed
points of MathRow construction. -/
def scanStep (ctx : Option (Option MathClass)) (f : MathFragment) :
    Option (Option MathClass) :=
  match f with
  | .Glyph c _ _ _ => some c
  | .Space _ => ctx
  | .Spacing _ => none
  | .Align => ctx
  | .Linebreak => none

/-- The classification context left after scanning a whole sequence. -/
def scanCtx (ctx : Option (Option MathClass)) (l : List MathFragment) :
    Option (Option MathClass) :=
  l.foldl scanStep ctx

/-- Join of the two layers of a classification context. -/
def ctxJoin (o : Option (Option MathClass)) : Option MathClass :=
  o.bind id

/-- One fragment of a resolved sequence is stable under re-resolution in
the given classification context: no Space fragment is present, promotion
does not fire, and no spacing gap is produced at the boundary. -/
def goodStep (ctx : Option (Option MathClass)) (f : MathFragment) : Bool :=
  match f with
  | .Glyph c _ _ _ =>
      !(decide (promoCond (ctxJoin ctx) c)) &&
        (match ctx with
          | some lc => decide (spacingGap lc c none = none)
          | none => true)
  | .Space _ => false
  | _ => true

/-- A sequence is resolved (a fixed point of the resolution pass) when
every fragment is stable in the context accumulated before it. -/
def good : Option (Option MathClass) → List MathFragment → Bool
  | _, [] => true
  | ctx, f :: rest => goodStep ctx f && good (scanStep ctx f) rest

/-- The classification context the resolution pass state (last, resolved)
denotes: the classification of the fragment at index last, when set. -/
def lastCtx (acc : List MathFragment) (last : Option Nat) :
    Option (Option MathClass) :=
  match last with
  | none => none
  | some i => (acc.get? i).map MathFragment.cls

/-- Claim C1: in MathRow construction a substantive Vary fragment is
reclassified to Binary exactly when the classification at the last
accepted substantive fragment is Normal, Alphabetic, Closing or Fence;
concretely, Alphabetic-Vary-Alphabetic promotes the middle fragment to
Binary, Relation-Vary-Alphabetic leaves it Vary, and an explicit Spacing
fragment before a Vary fragment blocks promotion for every gap width. -/
theorem mathRow_vary_promotion :
    (∀ (lastCls : Option MathClass) (f : MathFragment),
      f.cls = some MathClass.Vary →
      ((promote lastCls f).cls = some MathClass.Binary ↔
        (lastCls = some MathClass.Normal ∨ lastCls = some MathClass.Alphabetic ∨
          lastCls = some MathClass.Closing ∨ lastCls = some MathClass.Fence)))
    ∧ (MathRow.new [.Glyph (some MathClass.Alphabetic) 1 1 0,
        .Glyph (some MathClass.Vary) 1 1 0,
        .Glyph (some MathClass.Alphabetic) 1 1 0]).filterMap MathFragment.cls
      = [MathClass.Alphabetic, MathClass.Binary, MathClass.Alphabetic]
    ∧ (MathRow.new [.Glyph (some MathClass.Relation) 1 1 0,
        .Glyph (some MathClass.Vary) 1 1 0,
        .Glyph (some MathClass.Alphabetic) 1 1 0]).filterMap MathFragment.cls
      = [MathClass.Relation, MathClass.Vary, MathClass.Alphabetic]
    ∧ (∀ x : ℚ, MathRow.new [.Glyph (some MathClass.Alphabetic) 1 1 0,
        .Spacing x, .Glyph (some MathClass.Vary) 1 1 0]
      = [.Glyph (some MathClass.Alphabetic) 1 1 0, .Spacing x,
        .Glyph (some MathClass.Vary) 1 1 0]) := by
  refine ⟨?_, by rfl, by rfl, fun x => by rfl⟩
  intro lastCls f h
  constructor
  · intro hB
    by_contra hset
    have hid : promote lastCls f = f := by
      unfold promote
      rw [if_neg]
      intro hc
      exact hset hc.2
    rw [hid, h] at hB
    cases hB
  · intro hset
    have hp : promote lastCls f = f.setClass MathClass.Binary := by
      unfold promote
      rw [if_pos ⟨h, hset⟩]
    rw [hp]
    cases f
    case Glyph c w a d => rfl
    all_goals simp [MathFragment.cls] at h

/-- Witness for C1: at a concrete Alphabetic context and a concrete Vary
glyph, the promotion test reports the reclassification to Binary. -/
theorem mathRow_vary_promotion_witness :
    (promote (some MathClass.Alphabetic)
      (.Glyph (some MathClass.Vary) 1 1 0)).cls = some MathClass.Binary :=
  (mathRow_vary_promotion.1 (some MathClass.Alphabetic)
    (.Glyph (some MathClass.Vary) 1 1 0) rfl).mpr (Or.inr (Or.inl rfl))

/-- Claim C2: for an inline formula whose math font is found, the returned
frame has ascent max(topEdge, naturalAscent - 0.7 leading), descent
max(bottomEdge, naturalDescent - 0.7 leading), height equal to their sum,
and is translated so its baseline sits at the new ascent; a block formula
is returned with its natural metrics unchanged. -/
theorem formulaNode_inline_metrics (families : List (Option FontM))
    (span : Option Nat) (leading topEdge bottomEdge : ℚ)
    (lf : FontM → Except Nat Frame) (font : FontM) (frame : Frame)
    (hsel : selectMathFont families = some font) (hlf : lf font = .ok frame) :
    formulaNodeLayout families span false leading topEdge bottomEdge lf
      = .ok (reconcile false leading topEdge bottomEdge frame)
    ∧ formulaNodeLayout families span true leading topEdge bottomEdge lf
      = .ok frame
    ∧ (reconcile false leading topEdge bottomEdge frame).ascent
      = max topEdge (frame.ascent - (7 / 10) * leading)
    ∧ (reconcile false leading topEdge bottomEdge frame).descent
      = max bottomEdge (frame.descent - (7 / 10) * leading)
    ∧ (reconcile false leading topEdge bottomEdge frame).height
      = (reconcile false leading topEdge bottomEdge frame).ascent
        + (reconcile false leading topEdge bottomEdge frame).descent
    ∧ (reconcile false leading topEdge bottomEdge frame).baseline
      = max topEdge (frame.ascent - (7 / 10) * leading)
    ∧ (reconcile false leading topEdge bottomEdge frame).items
      = (frame.translate 0
          (max topEdge (frame.ascent - (7 / 10) * leading) - frame.baseline)).items := by
  have hasc : (reconcile false leading topEdge bottomEdge frame).baseline
      = max topEdge (frame.ascent - (7 / 10) * leading) := by
    simp [reconcile, Frame.baseline, Frame.translate, Frame.ascent]
    ring_nf
  have hh : (reconcile false leading topEdge bottomEdge frame).height
      = max topEdge (frame.ascent - (7 / 10) * leading)
        + max bottomEdge (frame.descent - (7 / 10) * leading) := by
    simp [reconcile]
    ring_nf
  have hdesc : (reconcile false leading topEdge bottomEdge frame).descent
      = max bottomEdge (frame.descent - (7 / 10) * leading) := by
    rw [Frame.descent, hasc, hh]
    ring
  refine ⟨?_, ?_, ?_, hdesc, ?_, hasc, ?_⟩
  · simp [formulaNodeLayout, hsel, hlf]
  · simp [formulaNodeLayout, hsel, hlf, reconcile]
  · rw [Frame.ascent, hasc]
  · have hasc2 : (reconcile false leading topEdge bottomEdge frame).ascent
        = max topEdge (frame.ascent - (7 / 10) * leading) := hasc
    rw [hh, hasc2, hdesc]
  · simp [reconcile, Frame.translate]
    ring_nf
    intros
    trivial

/-- Witness for C2: the inline reconciliation applied through the entry
point at a concrete font list and a concrete frame. -/
theorem formulaNode_inline_metrics_witness :
    selectMathFont [some ⟨true⟩] = some ⟨true⟩
    ∧ formulaNodeLayout [some ⟨true⟩] none false 1 2 3
        (fun _ => .ok (Frame.new 4 4))
      = .ok (reconcile false 1 2 3 (Frame.new 4 4)) :=
  ⟨rfl, (formulaNode_inline_metrics [some ⟨true⟩] none 1 2 3
    (fun _ => .ok (Frame.new 4 4)) ⟨true⟩ (Frame.new 4 4) rfl rfl).1⟩

/-- Claim C3: the entry point selects the first family whose font exposes
the math constants table; when no family matches it errors at the node's
span when one exists and otherwise returns an empty zero-size frame. -/
theorem formulaNode_font_policy :
    (∀ (pre post : List (Option FontM)) (f : FontM),
      (∀ o ∈ pre, matchMathFont o = none) → f.hasMathConstants = true →
      selectMathFont (pre ++ some f :: post) = some f)
    ∧ (∀ families span block leading topEdge bottomEdge lf,
        selectMathFont families = none →
        formulaNodeLayout families (some span) block leading topEdge bottomEdge lf
          = .error span)
    ∧ (∀ families block leading topEdge bottomEdge lf,
        selectMathFont families = none →
        formulaNodeLayout families none block leading topEdge bottomEdge lf
          = .ok (Frame.new 0 0))
    ∧ (Frame.new 0 0).width = 0 ∧ (Frame.new 0 0).height = 0 := by
  refine ⟨?_, ?_, ?_, rfl, rfl⟩
  · intro pre post f hpre hf
    induction pre with
    | nil =>
        simp [selectMathFont, List.findSome?, matchMathFont, hf]
    | cons o pre ih =>
        have h1 : matchMathFont o = none := hpre o (by simp)
        have h2 : ∀ o ∈ pre, matchMathFont o = none := fun o ho => hpre o (by simp [ho])
        simpa [selectMathFont, List.findSome?, h1] using ih h2
  · intro families span block leading topEdge bottomEdge lf hnone
    simp [formulaNodeLayout, hnone]
  · intro families block leading topEdge bottomEdge lf hnone
    simp [formulaNodeLayout, hnone]

/-- Witness for C3: for a concrete list whose first family lacks the math
constants table, the second is selected; with no matching family, the
entry point errors at the span when present and degrades to an empty
frame otherwise. -/
theorem formulaNode_font_policy_witness :
    selectMathFont [some ⟨false⟩, some ⟨true⟩] = some ⟨true⟩
    ∧ formulaNodeLayout [some ⟨false⟩, none] (some 7) false 1 1 1
        (fun _ => .ok (Frame.new 1 1)) = .error 7
    ∧ formulaNodeLayout [some ⟨false⟩, none] none false 1 1 1
        (fun _ => .ok (Frame.new 1 1)) = .ok (Frame.new 0 0) :=
  ⟨formulaNode_font_policy.1 [some ⟨false⟩] [] ⟨true⟩
      (by intro o ho; simp at ho; subst ho; rfl) rfl,
    formulaNode_font_policy.2.1 [some ⟨false⟩, none] 7 false 1 1 1
      (fun _ => .ok (Frame.new 1 1)) rfl,
    formulaNode_font_policy.2.2.1 [some ⟨false⟩, none] false 1 1 1
      (fun _ => .ok (Frame.new 1 1)) rfl⟩

/-- Claim C9: on horizontal-spacing content the dispatcher pushes exactly
one Spacing fragment sized from the absolute length when the amount is
fixed (relative part zero), pushes nothing when the amount is relative or
fractional, and succeeds in every case. -/
theorem layoutMath_hnode (ext : Externals) (ctx : MathCtx)
    (amount : SpacingAmount) :
    (layoutMath ext (.H amount) ctx).1 = .ok ()
    ∧ (layoutMath ext (.H amount) ctx).2
      = { ctx with fragments := ctx.fragments ++
          match amount with
          | .Rel ab rel => if rel = 0 then [.Spacing ab] else []
          | .Fr _ => [] } := by
  cases amount with
  | Rel ab rel =>
      by_cases h : rel = 0 <;> simp [layoutMath, MathCtx.push, h]
  | Fr fr =>
      simp [layoutMath]

/-- Counterexample for C6: with a shaping service that fails, a styled
node whose delta only changes the size exits through the error path with
the mutated size still in place: the context size after the call is the
styled size 5, not the prior size 10. -/
theorem layoutMath_styled_error_counterexample :
    (layoutMath
        { shapeText := fun _ _ => .error ()
          layoutContent := fun _ => .ok (Frame.new 0 0) }
        (.Styled ⟨none, some 5⟩ (.Text 0))
        { baseFont := 0, baseSize := 10, map := ⟨none, none⟩, size := 10
          sizeLevel := MathSize.Text, parLeading := 2, spaceWidth := 1
          axisHeight := 1, fragments := [] }).1 = .error ()
    ∧ (layoutMath
        { shapeText := fun _ _ => .error ()
          layoutContent := fun _ => .ok (Frame.new 0 0) }
        (.Styled ⟨none, some 5⟩ (.Text 0))
        { baseFont := 0, baseSize := 10, map := ⟨none, none⟩, size := 10
          sizeLevel := MathSize.Text, parLeading := 2, spaceWidth := 1
          axisHeight := 1, fragments := [] }).2.size
      ≠ (MathCtx.size
        { baseFont := 0, baseSize := 10, map := ⟨none, none⟩, size := 10
          sizeLevel := MathSize.Text, parLeading := 2, spaceWidth := 1
          axisHeight := 1, fragments := [] }) := by
  refine ⟨rfl, ?_⟩
  have h1 : (layoutMath
      { shapeText := fun _ _ => .error ()
        layoutContent := fun _ => .ok (Frame.new 0 0) }
      (.Styled ⟨none, some 5⟩ (.Text 0))
      { baseFont := 0, baseSize := 10, map := ⟨none, none⟩, size := 10
        sizeLevel := MathSize.Text, parLeading := 2, spaceWidth := 1
        axisHeight := 1, fragments := [] }).2.size = 5 := rfl
  rw [h1]
  norm_num

/-- Claim C6 as amended: for a styled node whose delta does not change the
font, a call that returns successfully restores the prior style map and
size, so after a successful call the context's style state equals its
state before the call and no sibling laid out afterwards observes the
subtree's style mutation; on an error exit the mutated style state is
left in place, and the error aborts the enclosing formula layout. -/
theorem layoutMath_styled_restore (ext : Externals) (m : StyleMap)
    (body : Content) (ctx : MathCtx)
    (hfont : m.font?.getD ctx.fontIn = ctx.fontIn)
    (hok : (layoutMath ext (.Styled m body) ctx).1 = .ok ()) :
    (layoutMath ext (.Styled m body) ctx).2.map = ctx.map
    ∧ (layoutMath ext (.Styled m body) ctx).2.size = ctx.size := by
  have hcond : ¬ m.font?.getD ctx.fontIn ≠ ctx.fontIn := not_not_intro hfont
  rcases hres : layoutMath ext body
      { ctx with
        map := StyleMap.apply m ctx.map
        size := (StyleMap.apply m ctx.map).size?.getD ctx.baseSize }
    with ⟨r, ctx2⟩
  cases r with
  | ok u => constructor <;> simp [layoutMath, hcond, hres]
  | error e =>
      rw [layoutMath] at hok
      simp only [hcond, if_false, ite_false] at hok
      rw [hres] at hok
      cases hok

/-- Witness for C6 (amended): a non-font-changing styled node around a
space succeeds and leaves the prior map and size in the context. -/
theorem layoutMath_styled_restore_witness :
    (layoutMath
        { shapeText := fun _ _ => .error ()
          layoutContent := fun _ => .ok (Frame.new 0 0) }
        (.Styled ⟨none, some 5⟩ .SpaceC)
        { baseFont := 0, baseSize := 10, map := ⟨none, none⟩, size := 10
          sizeLevel := MathSize.Text, parLeading := 2, spaceWidth := 1
          axisHeight := 1, fragments := [] }).2.map = ⟨none, none⟩
    ∧ (layoutMath
        { shapeText := fun _ _ => .error ()
          layoutContent := fun _ => .ok (Frame.new 0 0) }
        (.Styled ⟨none, some 5⟩ .SpaceC)
        { baseFont := 0, baseSize := 10, map := ⟨none, none⟩, size := 10
          sizeLevel := MathSize.Text, parLeading := 2, spaceWidth := 1
          axisHeight := 1, fragments := [] }).2.size = 10 :=
  layoutMath_styled_restore
    { shapeText := fun _ _ => .error ()
      layoutContent := fun _ => .ok (Frame.new 0 0) }
    ⟨none, some 5⟩ .SpaceC
    { baseFont := 0, baseSize := 10, map := ⟨none, none⟩, size := 10
      sizeLevel := MathSize.Text, parLeading := 2, spaceWidth := 1
      axisHeight := 1, fragments := [] }
    rfl rfl

theorem toLineFrame_height (l : List MathFragment) (pts : List ℚ) (al : Align) :
    (toLineFrame l pts al).height = MathRow.ascent l + MathRow.descent l := rfl

theorem toLineFrame_empty (pts : List ℚ) (al : Align) :
    (toLineFrame [] pts al).height = 0 ∧ (toLineFrame [] pts al).width = 0 := by
  constructor
  · show MathRow.ascent [] + MathRow.descent [] = 0
    simp [MathRow.ascent, MathRow.descent, maxD]
  · rcases pts with _ | ⟨p, pts⟩ <;> cases al <;>
      simp [toLineFrame, lineItems, centerX, MathRow.ascent, MathRow.descent, maxD]

theorem splitRows_ne_nil (p : MathFragment → Bool) (l : List MathFragment) :
    splitRows p l ≠ [] := by
  cases l with
  | nil => simp [splitRows]
  | cons f rest =>
      rw [splitRows]
      by_cases h : p f
      · simp [h]
      · simp only [h, if_false, ite_false]
        rcases splitRows p rest with _ | ⟨r, rs⟩ <;> simp

theorem splitRows_append_sep (p : MathFragment → Bool) (l : List MathFragment)
    (x : MathFragment) (hx : p x = true) :
    splitRows p (l ++ [x]) = splitRows p l ++ [[]] := by
  induction l with
  | nil => simp [splitRows, hx]
  | cons f rest ih =>
      rw [List.cons_append]
      by_cases h : p f
      · simp only [splitRows, h, if_true, ite_true, List.append_eq, ih]
        rfl
      · simp only [splitRows, h, if_false, ite_false, List.append_eq, ih]
        rcases hr : splitRows p rest with _ | ⟨r, rs⟩
        · exact absurd hr (splitRows_ne_nil p rest)
        · simp

theorem splitRows_no_sep (p : MathFragment → Bool) (l : List MathFragment)
    (h : l.any p = false) :
    splitRows p l = [l] := by
  induction l with
  | nil => rfl
  | cons f rest ih =>
      simp only [List.any_cons, Bool.or_eq_false_iff] at h
      rw [splitRows, if_neg (by simp [h.1]), ih h.2]

theorem sum_map_const_add (L : ℚ) {α : Type} (f : α → ℚ) (l : List α) :
    (l.map fun x => L + f x).sum = L * l.length + (l.map f).sum := by
  induction l with
  | nil => simp
  | cons x xs ih =>
      simp [ih]
      ring

theorem assembleRows_height (L W : ℚ) (pts : List ℚ) (al : Align)
    (rows : List (List MathFragment)) :
    ∀ (i : Nat) (fr : Frame), 1 ≤ i →
    (assembleRows L W pts al i fr rows).height
      = fr.height + (rows.map fun r => L + (toLineFrame r pts al).height).sum := by
  induction rows with
  | nil => intro i fr _; simp [assembleRows]
  | cons r rest ih =>
      intro i fr hi
      rw [assembleRows]
      have hpos : 0 < i := hi
      rw [ih (i + 1) _ (by omega)]
      simp [hpos]
      ring

theorem assembleRows_width (L W : ℚ) (pts : List ℚ) (al : Align)
    (rows : List (List MathFragment)) :
    ∀ (i : Nat) (fr : Frame),
    (assembleRows L W pts al i fr rows).width
      = (rows.map fun r => (toLineFrame r pts al).width).foldl max fr.width := by
  induction rows with
  | nil => intro i fr; simp [assembleRows]
  | cons r rest ih =>
      intro i fr
      rw [assembleRows, ih]
      rfl

theorem assembleRows_items_x (L W : ℚ) (pts : List ℚ) (al : Align)
    (rows : List (List MathFragment)) :
    ∀ (i : Nat) (fr : Frame),
    (assembleRows L W pts al i fr rows).items.map (fun it => it.1.1)
      = fr.items.map (fun it => it.1.1)
        ++ rows.map (fun r =>
            if pts.isEmpty then al.position (W - (toLineFrame r pts al).width) else 0) := by
  induction rows with
  | nil => intro i fr; simp [assembleRows]
  | cons r rest ih =>
      intro i fr
      rw [assembleRows, ih]
      simp

theorem toAligned_height (ctx : MathCtx) (l : List MathFragment)
    (pts : List ℚ) (al : Align) (h : l.any MathFragment.isLinebreak = true) :
    (MathRow.toAlignedFrame ctx l pts al).height
      = ((splitRows MathFragment.isLinebreak l).map MathRow.height).sum
        + rowLeading ctx
          * (((splitRows MathFragment.isLinebreak l).length - 1 : ℕ) : ℚ) := by
  rw [MathRow.toAlignedFrame, if_pos h]
  rcases hr : splitRows MathFragment.isLinebreak l with _ | ⟨r, rest⟩
  · exact absurd hr (splitRows_ne_nil _ l)
  · rw [assembleRows]
    rw [assembleRows_height _ _ _ _ _ 1 _ le_rfl]
    have hmap : ∀ (rs : List (List MathFragment)) (ps : List ℚ),
        (rs.map fun q => rowLeading ctx + (toLineFrame q ps al).height).sum
          = rowLeading ctx * rs.length + (rs.map MathRow.height).sum := by
      intro rs ps
      have hmm : (rs.map fun q => (toLineFrame q ps al).height)
          = rs.map MathRow.height := by
        apply List.map_congr_left
        intro q _
        rw [toLineFrame_height]
        rfl
      rw [sum_map_const_add, hmm]
    rw [hmap]
    simp [Frame.new, toLineFrame_height, MathRow.height]
    ring

theorem toAligned_multi (ctx : MathCtx) (l : List MathFragment)
    (pts : List ℚ) (al : Align) (h : l.any MathFragment.isLinebreak = true) :
    MathRow.toAlignedFrame ctx l pts al
      = assembleRows (rowLeading ctx)
          (maxD ((splitRows MathFragment.isLinebreak l).map MathRow.width))
          (alignments (splitRows MathFragment.isLinebreak l)) al 0 (Frame.new 0 0)
          (splitRows MathFragment.isLinebreak l) := by
  rw [MathRow.toAlignedFrame, if_pos h]

theorem foldl_max_zero_eq_maxD (ws : List ℚ) (hne : ws ≠ [])
    (h0 : ∀ w ∈ ws, 0 ≤ w) :
    ws.foldl max 0 = maxD ws := by
  cases ws with
  | nil => exact absurd rfl hne
  | cons w ws =>
      rw [maxD, List.foldl_cons, max_eq_right (h0 w (by simp))]

/-- Claim C4: a row containing Linebreak markers is split into N sub-rows
at the markers (one frame item per sub-row); the total frame height is the
sum of the sub-row frame heights plus leading times N minus one, the total
frame width is the maximum sub-row frame width, and the leading is the
scaled tight-leading constant below text size and the paragraph leading
otherwise. -/
theorem mathRow_multirow_assembly (ctx : MathCtx) (l : List MathFragment)
    (pts : List ℚ) (al : Align) (h : l.any MathFragment.isLinebreak = true) :
    (MathRow.toAlignedFrame ctx l pts al).items.length
      = (splitRows MathFragment.isLinebreak l).length
    ∧ (MathRow.toAlignedFrame ctx l pts al).height
      = ((splitRows MathFragment.isLinebreak l).map (fun r =>
          (toLineFrame r (alignments (splitRows MathFragment.isLinebreak l)) al).height)).sum
        + rowLeading ctx * (((splitRows MathFragment.isLinebreak l).length - 1 : ℕ) : ℚ)
    ∧ (MathRow.toAlignedFrame ctx l pts al).width
      = ((splitRows MathFragment.isLinebreak l).map (fun r =>
          (toLineFrame r (alignments (splitRows MathFragment.isLinebreak l)) al).width)).foldl max 0
    ∧ ((∀ wv ∈ (splitRows MathFragment.isLinebreak l).map (fun r =>
          (toLineFrame r (alignments (splitRows MathFragment.isLinebreak l)) al).width),
          0 ≤ wv) →
        (MathRow.toAlignedFrame ctx l pts al).width
          = maxD ((splitRows MathFragment.isLinebreak l).map (fun r =>
              (toLineFrame r (alignments (splitRows MathFragment.isLinebreak l)) al).width)))
    ∧ rowLeading ctx = (if MathSize.Text.rank ≤ ctx.sizeLevel.rank
        then ctx.parLeading else TIGHT_LEADING * ctx.size) := by
  have e := toAligned_multi ctx l pts al h
  have hw : (MathRow.toAlignedFrame ctx l pts al).width
      = ((splitRows MathFragment.isLinebreak l).map (fun r =>
          (toLineFrame r (alignments (splitRows MathFragment.isLinebreak l)) al).width)).foldl
        max 0 := by
    rw [e, assembleRows_width]
    rfl
  refine ⟨?_, ?_, hw, ?_, rfl⟩
  · have hx := assembleRows_items_x (rowLeading ctx)
      (maxD ((splitRows MathFragment.isLinebreak l).map MathRow.width))
      (alignments (splitRows MathFragment.isLinebreak l)) al
      (splitRows MathFragment.isLinebreak l) 0 (Frame.new 0 0)
    have hlen := congrArg List.length hx
    simp only [List.length_map, Frame.new, List.length_append, List.length_nil] at hlen
    rw [e]
    simpa using hlen
  · rw [toAligned_height ctx l pts al h]
    have hmm : ((splitRows MathFragment.isLinebreak l).map (fun r =>
        (toLineFrame r (alignments (splitRows MathFragment.isLinebreak l)) al).height))
        = (splitRows MathFragment.isLinebreak l).map MathRow.height := by
      apply List.map_congr_left
      intro q _
      rw [toLineFrame_height]
      rfl
    rw [hmm]
  · intro h0
    rw [hw]
    apply foldl_max_zero_eq_maxD _ _ h0
    simp [splitRows_ne_nil]

/-- Witness for C4: a concrete two-row formula at script size, where the
leading is the scaled tight-leading constant. -/
theorem mathRow_multirow_assembly_witness :
    ([.Glyph (some MathClass.Alphabetic) 1 1 0, .Linebreak,
      .Glyph (some MathClass.Alphabetic) 2 1 1]
        : List MathFragment).any MathFragment.isLinebreak = true
    ∧ (MathRow.toAlignedFrame
        { baseFont := 0, baseSize := 4, map := ⟨none, none⟩, size := 4
          sizeLevel := MathSize.Script, parLeading := 7, spaceWidth := 1
          axisHeight := 1, fragments := [] }
        [.Glyph (some MathClass.Alphabetic) 1 1 0, .Linebreak,
          .Glyph (some MathClass.Alphabetic) 2 1 1] [] .Left).height
      = ((splitRows MathFragment.isLinebreak
          [.Glyph (some MathClass.Alphabetic) 1 1 0, .Linebreak,
            .Glyph (some MathClass.Alphabetic) 2 1 1]).map (fun r =>
          (toLineFrame r (alignments (splitRows MathFragment.isLinebreak
            [.Glyph (some MathClass.Alphabetic) 1 1 0, .Linebreak,
              .Glyph (some MathClass.Alphabetic) 2 1 1])) .Left).height)).sum
        + rowLeading
          { baseFont := 0, baseSize := 4, map := ⟨none, none⟩, size := 4
            sizeLevel := MathSize.Script, parLeading := 7, spaceWidth := 1
            axisHeight := 1, fragments := [] }
          * (((splitRows MathFragment.isLinebreak
              [.Glyph (some MathClass.Alphabetic) 1 1 0, .Linebreak,
                .Glyph (some MathClass.Alphabetic) 2 1 1]).length - 1 : ℕ) : ℚ) :=
  ⟨rfl, (mathRow_multirow_assembly
    { baseFont := 0, baseSize := 4, map := ⟨none, none⟩, size := 4
      sizeLevel := MathSize.Script, parLeading := 7, spaceWidth := 1
      axisHeight := 1, fragments := [] }
    [.Glyph (some MathClass.Alphabetic) 1 1 0, .Linebreak,
      .Glyph (some MathClass.Alphabetic) 2 1 1] [] .Left rfl).2.1⟩

/-- Claim C10: a trailing Linebreak marker produces a trailing empty
sub-row that is counted as a row: splitting yields one more sub-row, the
empty sub-row's own frame has zero height and zero width, and the
assembled frame is exactly one leading gap taller than the frame of the
same sequence without the trailing Linebreak. -/
theorem mathRow_trailing_linebreak (ctx : MathCtx) (l : List MathFragment)
    (pts : List ℚ) (al : Align) :
    (splitRows MathFragment.isLinebreak (l ++ [.Linebreak])).length
      = (splitRows MathFragment.isLinebreak l).length + 1
    ∧ (∀ (pts2 : List ℚ) (al2 : Align),
        (toLineFrame [] pts2 al2).height = 0 ∧ (toLineFrame [] pts2 al2).width = 0)
    ∧ (MathRow.toAlignedFrame ctx (l ++ [.Linebreak]) pts al).height
      = (MathRow.toAlignedFrame ctx l pts al).height + rowLeading ctx := by
  have hsr := splitRows_append_sep MathFragment.isLinebreak l .Linebreak rfl
  have hany : (l ++ [MathFragment.Linebreak]).any MathFragment.isLinebreak = true := by
    simp [MathFragment.isLinebreak]
  have hzero : MathRow.height ([] : List MathFragment) = 0 := by
    show MathRow.ascent [] + MathRow.descent [] = 0
    simp [MathRow.ascent, MathRow.descent, maxD]
  refine ⟨by rw [hsr]; simp, fun pts2 al2 => toLineFrame_empty pts2 al2, ?_⟩
  rw [toAligned_height ctx (l ++ [MathFragment.Linebreak]) pts al hany, hsr]
  by_cases hl : l.any MathFragment.isLinebreak = true
  · rw [toAligned_height ctx l pts al hl]
    have hne : (splitRows MathFragment.isLinebreak l).length ≠ 0 := by
      simp [splitRows_ne_nil]
    have h1 : 1 ≤ (splitRows MathFragment.isLinebreak l).length := by omega
    rw [List.map_append, List.sum_append]
    simp only [List.map_cons, List.map_nil, List.sum_cons, List.sum_nil, hzero,
      List.length_append, List.length_cons, List.length_nil]
    rw [Nat.add_sub_cancel, Nat.cast_sub h1]
    push_cast
    ring
  · have hl2 : l.any MathFragment.isLinebreak = false := by simpa using hl
    rw [splitRows_no_sep MathFragment.isLinebreak l hl2,
      MathRow.toAlignedFrame, if_neg (by rw [hl2]; simp), toLineFrame_height]
    simp only [List.cons_append, List.nil_append, List.map_cons, List.map_nil,
      List.sum_cons, List.sum_nil, hzero, List.length_cons, List.length_nil]
    norm_num [MathRow.height]

/-- Claim C5 as amended: in multi-row assembly the horizontal position of
every sub-row frame is decided globally, not per sub-row: when the shared
alignment-point list (computed from all sub-rows together) is empty, each
sub-row is placed by the global alignment within the widest row width;
when it is non-empty, column positions take precedence for every sub-row,
whose frame is placed at x equal to zero, including sub-rows that contain
no alignment columns of their own. -/
theorem mathRow_subrow_positions (ctx : MathCtx) (l : List MathFragment)
    (pts : List ℚ) (al : Align) (h : l.any MathFragment.isLinebreak = true) :
    (MathRow.toAlignedFrame ctx l pts al).items.map (fun it => it.1.1)
      = (splitRows MathFragment.isLinebreak l).map (fun r =>
          if (alignments (splitRows MathFragment.isLinebreak l)).isEmpty
          then al.position
            (maxD ((splitRows MathFragment.isLinebreak l).map MathRow.width)
              - (toLineFrame r (alignments (splitRows MathFragment.isLinebreak l)) al).width)
          else 0) := by
  rw [toAligned_multi ctx l pts al h, assembleRows_items_x]
  simp [Frame.new]

/-- Witness for C5 (amended): a concrete two-row input where the first
sub-row has an alignment column; both sub-row frames, including the
second one without columns of its own, are placed at x equal to zero. -/
theorem mathRow_subrow_positions_witness :
    ([.Glyph (some MathClass.Alphabetic) 2 1 0, .Align,
      .Glyph (some MathClass.Alphabetic) 1 1 0, .Linebreak,
      .Glyph (some MathClass.Alphabetic) 1 1 0]
        : List MathFragment).any MathFragment.isLinebreak = true
    ∧ (MathRow.toAlignedFrame
        { baseFont := 0, baseSize := 10, map := ⟨none, none⟩, size := 10
          sizeLevel := MathSize.Text, parLeading := 1, spaceWidth := 1
          axisHeight := 1, fragments := [] }
        [.Glyph (some MathClass.Alphabetic) 2 1 0, .Align,
          .Glyph (some MathClass.Alphabetic) 1 1 0, .Linebreak,
          .Glyph (some MathClass.Alphabetic) 1 1 0] [] .Right).items.map
        (fun it => it.1.1)
      = (splitRows MathFragment.isLinebreak
          [.Glyph (some MathClass.Alphabetic) 2 1 0, .Align,
            .Glyph (some MathClass.Alphabetic) 1 1 0, .Linebreak,
            .Glyph (some MathClass.Alphabetic) 1 1 0]).map (fun r =>
          if (alignments (splitRows MathFragment.isLinebreak
              [.Glyph (some MathClass.Alphabetic) 2 1 0, .Align,
                .Glyph (some MathClass.Alphabetic) 1 1 0, .Linebreak,
                .Glyph (some MathClass.Alphabetic) 1 1 0])).isEmpty
          then Align.position .Right
            (maxD ((splitRows MathFragment.isLinebreak
                [.Glyph (some MathClass.Alphabetic) 2 1 0, .Align,
                  .Glyph (some MathClass.Alphabetic) 1 1 0, .Linebreak,
                  .Glyph (some MathClass.Alphabetic) 1 1 0]).map MathRow.width)
              - (toLineFrame r (alignments (splitRows MathFragment.isLinebreak
                  [.Glyph (some MathClass.Alphabetic) 2 1 0, .Align,
                    .Glyph (some MathClass.Alphabetic) 1 1 0, .Linebreak,
                    .Glyph (some MathClass.Alphabetic) 1 1 0])) .Right).width)
          else 0) :=
  ⟨rfl, mathRow_subrow_positions
    { baseFont := 0, baseSize := 10, map := ⟨none, none⟩, size := 10
      sizeLevel := MathSize.Text, parLeading := 1, spaceWidth := 1
      axisHeight := 1, fragments := [] }
    [.Glyph (some MathClass.Alphabetic) 2 1 0, .Align,
      .Glyph (some MathClass.Alphabetic) 1 1 0, .Linebreak,
      .Glyph (some MathClass.Alphabetic) 1 1 0] [] .Right rfl⟩

/-- Counterexample for C5: in the same concrete two-row input the second
sub-row has no alignment columns of its own, yet its frame sits at x
equal to zero rather than at the globally right-aligned position 2, so
the per-sub-row reading of the alignment decision is false. -/
theorem mathRow_subrow_positions_counterexample :
    ((MathRow.toAlignedFrame
        { baseFont := 0, baseSize := 10, map := ⟨none, none⟩, size := 10
          sizeLevel := MathSize.Text, parLeading := 1, spaceWidth := 1
          axisHeight := 1, fragments := [] }
        [.Glyph (some MathClass.Alphabetic) 2 1 0, .Align,
          .Glyph (some MathClass.Alphabetic) 1 1 0, .Linebreak,
          .Glyph (some MathClass.Alphabetic) 1 1 0] [] .Right).items.map
        (fun it => it.1.1)).get? 1 = some 0
    ∧ (([.Glyph (some MathClass.Alphabetic) 1 1 0] : List MathFragment).any
        MathFragment.isAlign) = false
    ∧ Align.position .Right
        (maxD ((splitRows MathFragment.isLinebreak
            [.Glyph (some MathClass.Alphabetic) 2 1 0, .Align,
              .Glyph (some MathClass.Alphabetic) 1 1 0, .Linebreak,
              .Glyph (some MathClass.Alphabetic) 1 1 0]).map MathRow.width)
          - (toLineFrame [.Glyph (some MathClass.Alphabetic) 1 1 0]
              (alignments (splitRows MathFragment.isLinebreak
                [.Glyph (some MathClass.Alphabetic) 2 1 0, .Align,
                  .Glyph (some MathClass.Alphabetic) 1 1 0, .Linebreak,
                  .Glyph (some MathClass.Alphabetic) 1 1 0])) .Right).width)
      = 2
    ∧ (0 : ℚ) ≠ 2 := by
  refine ⟨rfl, rfl, ?_, by norm_num⟩
  norm_num [maxD, splitRows, alignments, toLineFrame, lineItems, centerX,
    MathRow.width, MathRow.ascent, MathRow.descent, MathFragment.width,
    MathFragment.isLinebreak, MathFragment.isAlign, Align.position,
    MathFragment.ascent, MathFragment.descent, List.range_succ, List.range_zero]

theorem promoCond_none (c : Option MathClass) : ¬ promoCond none c := by
  rintro ⟨-, h | h | h | h⟩ <;> cases h

theorem promote_of_not {lc : Option MathClass} {f : MathFragment}
    (h : ¬ promoCond lc f.cls) : promote lc f = f := by
  rw [promote, if_neg h]

theorem promote_glyph (lc : Option MathClass) (c : Option MathClass)
    (w a d : ℚ) :
    ∃ c', promote lc (.Glyph c w a d) = .Glyph c' w a d := by
  rw [promote]
  by_cases h : promoCond lc (MathFragment.cls (.Glyph c w a d))
  · exact ⟨some MathClass.Binary, by rw [if_pos h]; rfl⟩
  · exact ⟨c, by rw [if_neg h]⟩

theorem promote_not_again (lc : Option MathClass) (c : Option MathClass)
    (w a d : ℚ) :
    ¬ promoCond lc ((promote lc (.Glyph c w a d)).cls) := by
  rw [promote]
  by_cases h : promoCond lc (MathFragment.cls (.Glyph c w a d))
  · rw [if_pos h]
    rintro ⟨hv, -⟩
    cases hv
  · rw [if_neg h]
    exact h

theorem spacingGap_none_mono {a b : Option MathClass} {sp : Option ℚ}
    (h : spacingGap a b sp = none) : spacingGap a b none = none := by
  unfold spacingGap at h ⊢
  split_ifs at h ⊢ <;> simp_all

theorem spacing_none_iff (a : MathFragment) (sp : Option MathFragment)
    (b : MathFragment) :
    spacing a sp b = none ↔ spacingGap a.cls b.cls (sp.map MathFragment.width) = none := by
  rw [spacing]
  exact Option.map_eq_none

theorem spacing_eq_some {a : MathFragment} {sp : Option MathFragment}
    {b s : MathFragment} (h : spacing a sp b = some s) :
    ∃ g, s = .Spacing g := by
  rw [spacing] at h
  rcases Option.map_eq_some.mp h with ⟨g, -, hg⟩
  exact ⟨g, hg.symm⟩

theorem good_append (ctx : Option (Option MathClass))
    (xs ys : List MathFragment) :
    good ctx (xs ++ ys) = (good ctx xs && good (scanCtx ctx xs) ys) := by
  induction xs generalizing ctx with
  | nil => simp [good, scanCtx]
  | cons x xs ih =>
      show (goodStep ctx x && good (scanStep ctx x) (xs ++ ys)) = _
      rw [ih, show good ctx (x :: xs)
        = (goodStep ctx x && good (scanStep ctx x) xs) from rfl]
      simp [scanCtx, List.foldl_cons, Bool.and_assoc]

theorem scanCtx_append (ctx : Option (Option MathClass))
    (xs ys : List MathFragment) :
    scanCtx ctx (xs ++ ys) = scanCtx (scanCtx ctx xs) ys := by
  simp [scanCtx, List.foldl_append]

theorem scanCtx_aligns (ctx : Option (Option MathClass))
    (A : List MathFragment) (h : A.all MathFragment.isAlign = true) :
    scanCtx ctx A = ctx := by
  induction A generalizing ctx with
  | nil => rfl
  | cons a A ih =>
      rw [List.all_cons, Bool.and_eq_true] at h
      obtain ⟨ha, hA⟩ := h
      cases a with
      | Align => exact ih ctx hA
      | Glyph c w asc dsc => simp [MathFragment.isAlign] at ha
      | Space w => simp [MathFragment.isAlign] at ha
      | Spacing w => simp [MathFragment.isAlign] at ha
      | Linebreak => simp [MathFragment.isAlign] at ha

theorem good_aligns (ctx : Option (Option MathClass))
    (A : List MathFragment) (h : A.all MathFragment.isAlign = true) :
    good ctx A = true := by
  induction A generalizing ctx with
  | nil => rfl
  | cons a A ih =>
      rw [List.all_cons, Bool.and_eq_true] at h
      obtain ⟨ha, hA⟩ := h
      cases a with
      | Align =>
          show (goodStep ctx .Align && good (scanStep ctx .Align) A) = true
          simp [goodStep, scanStep, ih ctx hA]
      | Glyph c w asc dsc => simp [MathFragment.isAlign] at ha
      | Space w => simp [MathFragment.isAlign] at ha
      | Spacing w => simp [MathFragment.isAlign] at ha
      | Linebreak => simp [MathFragment.isAlign] at ha

theorem insertIdx_at_append {α : Type} (P A : List α) (s : α) :
    (P ++ A).insertIdx P.length s = P ++ s :: A := by
  induction P with
  | nil => rfl
  | cons p P ih =>
      simp only [List.cons_append, List.length_cons, List.insertIdx_succ_cons, ih]

theorem bindClass_eq (acc : List MathFragment) (last : Option Nat) :
    (last.bind fun i => (acc.get? i).bind MathFragment.cls)
      = ctxJoin (lastCtx acc last) := by
  cases last with
  | none => rfl
  | some i =>
      show (acc.get? i).bind MathFragment.cls
        = ctxJoin ((acc.get? i).map MathFragment.cls)
      cases acc.get? i with
      | none => rfl
      | some v => rfl

theorem newLoop_of_good (l : List MathFragment) :
    ∀ (acc : List MathFragment) (last : Option Nat),
    (∀ i, last = some i → i < acc.length) →
    good (lastCtx acc last) l = true →
    newLoop last none acc l = acc ++ l := by
  induction l with
  | nil => intro acc last _ _; simp [newLoop]
  | cons f rest ih =>
      intro acc last hb hg
      rw [show good (lastCtx acc last) (f :: rest)
        = (goodStep (lastCtx acc last) f
            && good (scanStep (lastCtx acc last) f) rest) from rfl,
        Bool.and_eq_true] at hg
      obtain ⟨hstep, hrest⟩ := hg
      cases f with
      | Space w => simp [goodStep] at hstep
      | Spacing w =>
          have hih := ih (acc ++ [MathFragment.Spacing w]) none
            (by intro i h; cases h) hrest
          rw [show newLoop last none acc (.Spacing w :: rest)
            = newLoop none none (acc ++ [.Spacing w]) rest from rfl, hih]
          simp
      | Linebreak =>
          have hih := ih (acc ++ [MathFragment.Linebreak]) none
            (by intro i h; cases h) hrest
          rw [show newLoop last none acc (.Linebreak :: rest)
            = newLoop none none (acc ++ [.Linebreak]) rest from rfl, hih]
          simp
      | Align =>
          have hctx : lastCtx (acc ++ [MathFragment.Align]) last
              = lastCtx acc last := by
            cases last with
            | none => rfl
            | some i => rw [lastCtx, lastCtx, List.get?_append (hb i rfl)]
          have hih := ih (acc ++ [MathFragment.Align]) last
            (by intro i h; have := hb i h; simp; omega)
            (by rw [hctx]; exact hrest)
          rw [show newLoop last none acc (.Align :: rest)
            = newLoop last none (acc ++ [.Align]) rest from rfl, hih]
          simp
      | Glyph c w a d =>
          rw [show goodStep (lastCtx acc last) (.Glyph c w a d)
            = (!(decide (promoCond (ctxJoin (lastCtx acc last)) c)) &&
                (match lastCtx acc last with
                  | some lc => decide (spacingGap lc c none = none)
                  | none => true)) from rfl, Bool.and_eq_true] at hstep
          obtain ⟨hnp', hsp⟩ := hstep
          rw [Bool.not_eq_true', decide_eq_false_iff_not] at hnp'
          have hpro : promote
              (last.bind fun i => (acc.get? i).bind MathFragment.cls)
              (.Glyph c w a d) = .Glyph c w a d := by
            rw [bindClass_eq]
            exact promote_of_not hnp'
          have hcat : (acc ++ [(.Glyph c w a d : MathFragment)]).get? acc.length
              = some (.Glyph c w a d) := List.get?_concat_length acc _
          have hg2 : good (lastCtx (acc ++ [(.Glyph c w a d : MathFragment)])
              (some acc.length)) rest = true := by
            rw [lastCtx, hcat]
            exact hrest
          have hb2 : ∀ i, (some acc.length : Option Nat) = some i →
              i < (acc ++ [(.Glyph c w a d : MathFragment)]).length := by
            intro i h
            cases h
            simp
          cases last with
          | none =>
              have hih := ih (acc ++ [MathFragment.Glyph c w a d])
                (some acc.length) hb2 hg2
              rw [show newLoop none none acc (.Glyph c w a d :: rest)
                = newLoop (some acc.length) none
                    (acc ++ [promote ((none : Option Nat).bind
                      fun i => (acc.get? i).bind MathFragment.cls)
                      (.Glyph c w a d)]) rest from rfl,
                hpro, hih]
              simp
          | some i =>
              have hlt : i < acc.length := hb i rfl
              cases hpv : acc.get? i with
              | none =>
                  have := List.get?_eq_none.mp hpv
                  omega
              | some prev =>
                  have hctx : lastCtx acc (some i) = some prev.cls := by
                    rw [lastCtx, hpv]
                    rfl
                  rw [hctx] at hsp
                  have hgap : spacingGap prev.cls c none = none :=
                    of_decide_eq_true hsp
                  have hspc : spacing prev none (.Glyph c w a d) = none := by
                    rw [spacing_none_iff]
                    exact hgap
                  have hpro2 : promote prev.cls (.Glyph c w a d)
                      = .Glyph c w a d := by
                    apply promote_of_not
                    rw [hctx] at hnp'
                    exact hnp'
                  have hred : newLoop (some i) none acc (.Glyph c w a d :: rest)
                      = newLoop (some acc.length) none
                          (acc ++ [(.Glyph c w a d : MathFragment)]) rest := by
                    simp only [newLoop, Option.some_bind, hpv, hpro2, hspc]
                  have hih := ih (acc ++ [MathFragment.Glyph c w a d])
                    (some acc.length) hb2 hg2
                  rw [hred, hih]
                  simp

theorem insertIdx_eq_take_drop {α : Type} (s : α) :
    ∀ (n : Nat) (l : List α), n ≤ l.length →
    l.insertIdx n s = l.take n ++ s :: l.drop n := by
  intro n
  induction n with
  | zero => intro l _; simp
  | succ n ih =>
      intro l h
      cases l with
      | nil => simp at h
      | cons x xs =>
          rw [List.insertIdx_succ_cons, List.take_succ_cons, List.drop_succ_cons,
            ih xs (by simpa using h)]
          rfl

theorem good_newLoop (l : List MathFragment) :
    ∀ (acc : List MathFragment) (last : Option Nat) (sp : Option MathFragment),
    good none acc = true →
    scanCtx none acc = lastCtx acc last →
    (∀ i, last = some i → i < acc.length
      ∧ (acc.drop (i + 1)).all MathFragment.isAlign = true
      ∧ ∃ c w a d, acc.get? i = some (.Glyph c w a d)) →
    good none (newLoop last sp acc l) = true := by
  induction l with
  | nil => intro acc last sp hgood _ _; exact hgood
  | cons f rest ih =>
      intro acc last sp hgood hctx hinv
      cases f with
      | Space w =>
          cases last with
          | none =>
              show good none (newLoop none sp acc rest) = true
              exact ih acc none sp hgood hctx hinv
          | some i =>
              show good none (newLoop (some i) (some (.Space w)) acc rest) = true
              exact ih acc (some i) _ hgood hctx hinv
      | Spacing w =>
          show good none (newLoop none none (acc ++ [.Spacing w]) rest) = true
          apply ih
          · rw [good_append]
            simp [hgood, good, goodStep]
          · rw [scanCtx_append]
            rfl
          · intro i h; cases h
      | Linebreak =>
          show good none (newLoop none none (acc ++ [.Linebreak]) rest) = true
          apply ih
          · rw [good_append]
            simp [hgood, good, goodStep]
          · rw [scanCtx_append]
            rfl
          · intro i h; cases h
      | Align =>
          show good none (newLoop last sp (acc ++ [.Align]) rest) = true
          apply ih
          · rw [good_append]
            simp [hgood, good, goodStep]
          · rw [scanCtx_append]
            cases last with
            | none =>
                have hsc : scanCtx none acc = none := hctx
                rw [show scanCtx (scanCtx none acc) [MathFragment.Align]
                  = scanCtx none acc from rfl, hsc]
                rfl
            | some i =>
                obtain ⟨hlt, -, -⟩ := hinv i rfl
                rw [show scanCtx (scanCtx none acc) [MathFragment.Align]
                  = scanCtx none acc from rfl, hctx, lastCtx, lastCtx,
                  List.get?_append hlt]
          · intro i h
            obtain ⟨hlt, hdrop, hglyph⟩ := hinv i h
            refine ⟨by simp; omega, ?_, ?_⟩
            · rw [List.drop_append_of_le_length (by omega)]
              simp only [List.all_append, hdrop, Bool.true_and]
              rfl
            · obtain ⟨c2, w2, a2, d2, hg⟩ := hglyph
              exact ⟨c2, w2, a2, d2, by rw [List.get?_append hlt, hg]⟩
      | Glyph c w a d =>
          cases last with
          | none =>
              have hpro : promote ((none : Option Nat).bind
                  fun i => (acc.get? i).bind MathFragment.cls)
                  (.Glyph c w a d) = .Glyph c w a d :=
                promote_of_not (promoCond_none c)
              rw [show newLoop none sp acc (.Glyph c w a d :: rest)
                = newLoop (some acc.length) sp
                    (acc ++ [promote ((none : Option Nat).bind
                      fun i => (acc.get? i).bind MathFragment.cls)
                      (.Glyph c w a d)]) rest from rfl, hpro]
              apply ih
              · have hsc : scanCtx none acc = none := hctx
                have hdec : decide (promoCond (none : Option MathClass) c) = false :=
                  decide_eq_false (promoCond_none c)
                rw [good_append, hsc]
                simp [hgood, good, goodStep, scanStep, ctxJoin, hdec]
              · rw [scanCtx_append, lastCtx, List.get?_concat_length]
                rfl
              · intro i h
                cases h
                refine ⟨by simp, ?_, c, w, a, d, List.get?_concat_length acc _⟩
                rw [List.drop_eq_nil_of_le (by simp)]
                rfl
          | some i =>
              obtain ⟨hlt, hdrop, cp, wp, ap, dp, hpv⟩ := hinv i rfl
              have hctx2 : lastCtx acc (some i) = some cp := by
                rw [lastCtx, hpv]
                rfl
              obtain ⟨c', hf⟩ := promote_glyph cp c w a d
              have hnotagain : ¬ promoCond cp c' := by
                have := promote_not_again cp c w a d
                rw [hf] at this
                exact this
              have hred : newLoop (some i) sp acc (.Glyph c w a d :: rest)
                  = (match spacing (.Glyph cp wp ap dp) sp (.Glyph c' w a d) with
                    | some s => newLoop (some ((acc.insertIdx (i + 1) s).length))
                        none ((acc.insertIdx (i + 1) s) ++ [.Glyph c' w a d]) rest
                    | none => newLoop (some acc.length) none
                        (acc ++ [.Glyph c' w a d]) rest) := by
                simp only [newLoop, Option.some_bind, hpv, MathFragment.cls, hf]
                cases spacing (.Glyph cp wp ap dp) sp (.Glyph c' w a d) <;> rfl
              rw [hred]
              cases hs : spacing (.Glyph cp wp ap dp) sp (.Glyph c' w a d) with
              | none =>
                  have hgap : spacingGap cp c' none = none := by
                    apply spacingGap_none_mono
                    exact (spacing_none_iff _ _ _).mp hs
                  apply ih
                  · have hsc : scanCtx none acc = some cp := by rw [hctx, hctx2]
                    have hd1 : decide (promoCond (ctxJoin (some cp)) c') = false :=
                      decide_eq_false hnotagain
                    have hd2 : decide (spacingGap cp c' none = none) = true :=
                      decide_eq_true hgap
                    rw [good_append, hsc]
                    simp [hgood, good, goodStep, scanStep, ctxJoin, hd1, hd2,
                      hnotagain]
                  · rw [scanCtx_append, lastCtx, List.get?_concat_length]
                    rfl
                  · intro j h
                    cases h
                    refine ⟨by simp, ?_, c', w, a, d, List.get?_concat_length acc _⟩
                    rw [List.drop_eq_nil_of_le (by simp)]
                    rfl
              | some s =>
                  obtain ⟨gw, hsw⟩ := spacing_eq_some hs
                  subst hsw
                  have hins : acc.insertIdx (i + 1) (.Spacing gw)
                      = acc.take (i + 1) ++ .Spacing gw :: acc.drop (i + 1) :=
                    insertIdx_eq_take_drop _ _ _ (by omega)
                  have hPA : acc.take (i + 1) ++ acc.drop (i + 1) = acc :=
                    List.take_append_drop _ _
                  have hgP : good none (acc.take (i + 1)) = true := by
                    have := hgood
                    rw [← hPA, good_append, Bool.and_eq_true] at this
                    exact this.1
                  have hscP : scanCtx none (acc.take (i + 1)) = some cp := by
                    have h1 : scanCtx none acc = some cp := by rw [hctx, hctx2]
                    rw [← hPA, scanCtx_append,
                      scanCtx_aligns _ _ hdrop] at h1
                    exact h1
                  show good none (newLoop
                    (some ((acc.insertIdx (i + 1) (.Spacing gw)).length)) none
                    ((acc.insertIdx (i + 1) (.Spacing gw))
                      ++ [.Glyph c' w a d]) rest) = true
                  rw [hins]
                  apply ih
                  · have hd1 : decide (promoCond (ctxJoin
                        (none : Option (Option MathClass))) c') = false :=
                      decide_eq_false (promoCond_none c')
                    rw [show (acc.take (i + 1) ++ .Spacing gw :: acc.drop (i + 1))
                        ++ [(.Glyph c' w a d : MathFragment)]
                      = acc.take (i + 1)
                        ++ (.Spacing gw
                          :: (acc.drop (i + 1) ++ [.Glyph c' w a d])) from by simp,
                      good_append, hscP]
                    have hgA : good none (acc.drop (i + 1)
                        ++ [(.Glyph c' w a d : MathFragment)]) = true := by
                      rw [good_append, good_aligns _ _ hdrop,
                        scanCtx_aligns _ _ hdrop]
                      simp [good, goodStep, scanStep, ctxJoin, hd1, promoCond_none]
                    simp [hgP, good, goodStep, scanStep, hgA]
                  · rw [scanCtx_append, lastCtx, List.get?_concat_length]
                    rfl
                  · intro j h
                    cases h
                    refine ⟨by simp <;> omega, ?_, c', w, a, d,
                      List.get?_concat_length _ _⟩
                    rw [List.drop_eq_nil_of_le (by simp <;> omega)]
                    rfl

/-- Claim C7: MathRow construction is idempotent: feeding the resolved
fragment sequence produced by construction back through construction
returns exactly the same sequence, for every input. -/
theorem mathRow_new_idempotent (l : List MathFragment) :
    MathRow.new (MathRow.new l) = MathRow.new l := by
  have hg : good none (MathRow.new l) = true := by
    apply good_newLoop
    · rfl
    · rfl
    · intro i h; cases h
  have hfix := newLoop_of_good (MathRow.new l) [] none
    (by intro i h; cases h) hg
  simpa [MathRow.new] using hfix

theorem newLoop_no_space (l : List MathFragment) :
    ∀ (acc : List MathFragment) (last : Option Nat) (sp : Option MathFragment),
    (∀ i, last = some i → i < acc.length) →
    acc.all (fun f => !f.isSpace) = true →
    (newLoop last sp acc l).all (fun f => !f.isSpace) = true := by
  induction l with
  | nil => intro acc last sp _ hacc; exact hacc
  | cons f rest ih =>
      intro acc last sp hb hacc
      cases f with
      | Space w =>
          cases last with
          | none => exact ih acc none sp hb hacc
          | some i => exact ih acc (some i) _ hb hacc
      | Spacing w =>
          apply ih _ none none (by intro i h; cases h)
          rw [List.all_append, Bool.and_eq_true]
          exact ⟨hacc, rfl⟩
      | Linebreak =>
          apply ih _ none none (by intro i h; cases h)
          rw [List.all_append, Bool.and_eq_true]
          exact ⟨hacc, rfl⟩
      | Align =>
          apply ih _ last sp (by intro i h; have := hb i h; simp; omega)
          rw [List.all_append, Bool.and_eq_true]
          exact ⟨hacc, rfl⟩
      | Glyph c w a d =>
          cases last with
          | none =>
              have hpro : promote ((none : Option Nat).bind
                  fun i => (acc.get? i).bind MathFragment.cls)
                  (.Glyph c w a d) = .Glyph c w a d :=
                promote_of_not (promoCond_none c)
              rw [show newLoop none sp acc (.Glyph c w a d :: rest)
                = newLoop (some acc.length) sp
                    (acc ++ [promote ((none : Option Nat).bind
                      fun i => (acc.get? i).bind MathFragment.cls)
                      (.Glyph c w a d)]) rest from rfl, hpro]
              apply ih _ _ sp (by intro i h; cases h; simp)
              rw [List.all_append, Bool.and_eq_true]
              exact ⟨hacc, rfl⟩
          | some i =>
              have hlt : i < acc.length := hb i rfl
              cases hpv : acc.get? i with
              | none =>
                  have := List.get?_eq_none.mp hpv
                  omega
              | some prev =>
                  obtain ⟨c', hf⟩ := promote_glyph prev.cls c w a d
                  have hred : newLoop (some i) sp acc (.Glyph c w a d :: rest)
                      = (match spacing prev sp (.Glyph c' w a d) with
                        | some s => newLoop
                            (some ((acc.insertIdx (i + 1) s).length)) none
                            ((acc.insertIdx (i + 1) s) ++ [.Glyph c' w a d]) rest
                        | none => newLoop (some acc.length) none
                            (acc ++ [.Glyph c' w a d]) rest) := by
                    simp only [newLoop, Option.some_bind, hpv, hf]
                    cases spacing prev sp (.Glyph c' w a d) <;> rfl
                  rw [hred]
                  cases hs : spacing prev sp (.Glyph c' w a d) with
                  | none =>
                      apply ih _ _ none (by intro j h; cases h; simp)
                      rw [List.all_append, Bool.and_eq_true]
                      exact ⟨hacc, rfl⟩
                  | some s =>
                      obtain ⟨gw, hsw⟩ := spacing_eq_some hs
                      subst hsw
                      apply ih _ _ none (by intro j h; cases h; simp)
                      rw [List.all_append, Bool.and_eq_true]
                      refine ⟨?_, rfl⟩
                      rw [insertIdx_eq_take_drop _ _ _ (by omega)]
                      have h2 := hacc
                      rw [← List.take_append_drop (i + 1) acc,
                        List.all_append, Bool.and_eq_true] at h2
                      rw [List.all_append, Bool.and_eq_true]
                      refine ⟨h2.1, ?_⟩
                      rw [List.all_cons, Bool.and_eq_true]
                      exact ⟨rfl, h2.2⟩

/-- Claim C8: during MathRow construction a Space fragment is discarded
when no substantive fragment is live and buffered as the pending space
otherwise; the Space fragment itself never appears in the resolved output,
and resolving a leading Space followed by a glyph drops the Space. -/
theorem mathRow_space_handling :
    (∀ (sp : Option MathFragment) (acc : List MathFragment) (w : ℚ)
        (rest : List MathFragment),
      newLoop none sp acc (.Space w :: rest) = newLoop none sp acc rest)
    ∧ (∀ (i : Nat) (sp : Option MathFragment) (acc : List MathFragment)
        (w : ℚ) (rest : List MathFragment),
      newLoop (some i) sp acc (.Space w :: rest)
        = newLoop (some i) (some (.Space w)) acc rest)
    ∧ (∀ l : List MathFragment,
        (MathRow.new l).all (fun f => !f.isSpace) = true)
    ∧ (∀ (w : ℚ) (c : Option MathClass) (wd a d : ℚ),
        MathRow.new [.Space w, .Glyph c wd a d] = [.Glyph c wd a d]) := by
  refine ⟨fun sp acc w rest => rfl, fun i sp acc w rest => rfl, ?_, ?_⟩
  · intro l
    exact newLoop_no_space l [] none none (by intro i h; cases h) rfl
  · intro w c wd a d
    have hpro : promote ((none : Option Nat).bind
        fun i => (([] : List MathFragment).get? i).bind MathFragment.cls)
        (.Glyph c wd a d) = .Glyph c wd a d :=
      promote_of_not (promoCond_none c)
    rw [show MathRow.new [.Space w, .Glyph c wd a d]
      = newLoop (some 0) none
          ([] ++ [promote ((none : Option Nat).bind
            fun i => (([] : List MathFragment).get? i).bind MathFragment.cls)
            (.Glyph c wd a d)]) [] from rfl, hpro]
    rfl
